import Mathlib

/-!
Verification of the `sndfilter` dynamics compressor (`src/compressor.c`).

The C code works on IEEE single-precision floats; this development embeds it
over the real numbers `ℝ`, the standard idealisation for "within floating
tolerance" claims.  Division, `log` and friends are total in Lean
(`x / 0 = 0`, `Real.log 0 = 0`); places where the C code would produce
`inf`/`NaN` are noted in comments next to the definitions concerned.
Machine `int` values that are always non-negative are modelled by `ℕ`.
-/

noncomputable section

/-- Stereo sample: one amplitude per channel (`sf_sample_st` in `sndfilter.h`). -/
structure sf_sample_st where
  L : ℝ
  R : ℝ

/-- Sound buffer: sample rate plus ordered samples (`sf_snd_st`).  The C
struct stores `size` and a pointer; here the list length plays the role of
`size`. -/
structure sf_snd_st where
  rate : ℕ
  samples : List sf_sample_st

/-- Compressor parameters (`sf_compressor_params_st`, compressor.c lines 13-26). -/
structure sf_compressor_params_st where
  threshold : ℝ
  knee : ℝ
  ratio : ℝ
  attack : ℝ
  release : ℝ
  predelay : ℝ
  releasezone1 : ℝ
  releasezone2 : ℝ
  releasezone3 : ℝ
  releasezone4 : ℝ
  postgain : ℝ
  wet : ℝ

/-- The default parameter set (compressor.c lines 13-26). -/
def sf_compressor_defaults : sf_compressor_params_st :=
  { threshold := -24, knee := 30, ratio := 12, attack := 0.003, release := 0.25,
    predelay := 0.006, releasezone1 := 0.09, releasezone2 := 0.16,
    releasezone3 := 0.42, releasezone4 := 0.98, postgain := 0, wet := 1 }

/-- dB to linear (compressor.c line 28): `powf(10, 0.05*db)`. -/
def db2lin (db : ℝ) : ℝ := (10 : ℝ) ^ (0.05 * db)

/-- linear to dB (compressor.c line 32): `20*log10f(lin)`. -/
def lin2db (lin : ℝ) : ℝ := 20 * Real.logb 10 lin

/-- Knee curve (compressor.c line 38). -/
def kneecurve (x k linearthreshold : ℝ) : ℝ :=
  linearthreshold + (1 - Real.exp (-k * (x - linearthreshold))) / k

/-- Knee slope (compressor.c line 42). -/
def kneeslope (x k linearthreshold : ℝ) : ℝ :=
  k * x / ((k * linearthreshold + 1) * Real.exp (k * (x - linearthreshold)) - 1)

/-- Compression curve (compressor.c lines 46-55). -/
def compcurve (x k slope linearthreshold linearthresholdknee threshold knee
    kneedboffset : ℝ) : ℝ :=
  if x < linearthreshold then x
  else if knee ≤ 0 then db2lin (threshold + slope * (lin2db x - threshold))
  else if x < linearthresholdknee then kneecurve x k linearthreshold
  else db2lin (kneedboffset + slope * (lin2db x - threshold - knee))

/-- Adaptive release curve, a cubic polynomial (compressor.c lines 59-63). -/
def adaptivereleasecurve (x a b c d : ℝ) : ℝ :=
  let x2 := x * x
  a * x2 * x + b * x2 + c * x + d

/-- Clamp (compressor.c line 65). -/
def clampf (v mn mx : ℝ) : ℝ := if v < mn then mn else if mx < v then mx else v

/-- Absolute value (compressor.c line 69). -/
def absf (v : ℝ) : ℝ := if v < 0 then -v else v

/-- The state of the binary search for the knee sharpness constant `k`
(compressor.c lines 117-131): current guess and current bracket. -/
structure KSearchState where
  k : ℝ
  mink : ℝ
  maxk : ℝ

/-- One iteration of the `k` binary search (compressor.c lines 125-131). -/
def ksearchStep (xknee slope linearthreshold : ℝ) (s : KSearchState) : KSearchState :=
  if kneeslope xknee s.k linearthreshold < slope then
    { k := Real.sqrt (s.mink * s.k), mink := s.mink, maxk := s.k }
  else
    { k := Real.sqrt (s.k * s.maxk), mink := s.k, maxk := s.maxk }

/-- `n` iterations of the `k` search starting from `k = 5`, bracket
`[0.1, 10000]` (compressor.c lines 117-131). -/
def ksearchIter (xknee slope linearthreshold : ℝ) : ℕ → KSearchState
  | 0 => { k := 5, mink := 0.1, maxk := 10000 }
  | n + 1 => ksearchStep xknee slope linearthreshold (ksearchIter xknee slope linearthreshold n)

/-- The knee sharpness constant `k` as computed by `sf_compressor`
(compressor.c lines 117-131): 15 binary-search iterations when a knee
exists, otherwise the initial value 5. -/
def computeK (threshold knee ratio : ℝ) : ℝ :=
  if 0 < knee then
    (ksearchIter (db2lin (threshold + knee)) (1 / ratio) (db2lin threshold) 15).k
  else 5

/-- Run constants derived once per invocation (compressor.c lines 101-151). -/
structure Consts where
  threshold : ℝ
  knee : ℝ
  wet : ℝ
  linearthreshold : ℝ
  slope : ℝ
  attacksamplesinv : ℝ
  satreleasesamplesinv : ℝ
  dry : ℝ
  meterrelease : ℝ
  k : ℝ
  kneedboffset : ℝ
  linearthresholdknee : ℝ
  mastergain : ℝ
  a : ℝ
  b : ℝ
  c : ℝ
  d : ℝ

/-- Cubic coefficient `a` (compressor.c line 148). -/
def releaseCoeffA (y1 y2 y3 y4 : ℝ) : ℝ := (-y1 + 3 * y2 - 3 * y3 + y4) / 6

/-- Cubic coefficient `b` (compressor.c line 149). -/
def releaseCoeffB (y1 y2 y3 y4 : ℝ) : ℝ := y1 - 2.5 * y2 + 2 * y3 - 0.5 * y4

/-- Cubic coefficient `c` (compressor.c line 150). -/
def releaseCoeffC (y1 y2 y3 y4 : ℝ) : ℝ := (-11 * y1 + 18 * y2 - 9 * y3 + 2 * y4) / 6

/-- Cubic coefficient `d` (compressor.c line 151). -/
def releaseCoeffD (y1 _y2 _y3 _y4 : ℝ) : ℝ := y1

/-- Derivation of all run constants (compressor.c lines 101-151).  When
`knee ≤ 0` the C code leaves `kneedboffset` and `linearthresholdknee`
uninitialised and never reads them; we model them by 0 in that case. -/
def mkConsts (rate : ℕ) (p : sf_compressor_params_st) : Consts :=
  let linearthreshold := db2lin p.threshold
  let slope := 1 / p.ratio
  let attacksamples := (rate : ℝ) * p.attack
  let releasesamples := (rate : ℝ) * p.release
  let k := computeK p.threshold p.knee p.ratio
  let kneedboffset :=
    if 0 < p.knee then lin2db (kneecurve (db2lin (p.threshold + p.knee)) k linearthreshold)
    else 0
  let linearthresholdknee := if 0 < p.knee then db2lin (p.threshold + p.knee) else 0
  let fulllevel := compcurve 1 k slope linearthreshold linearthresholdknee
    p.threshold p.knee kneedboffset
  let y1 := releasesamples * p.releasezone1
  let y2 := releasesamples * p.releasezone2
  let y3 := releasesamples * p.releasezone3
  let y4 := releasesamples * p.releasezone4
  { threshold := p.threshold
    knee := p.knee
    wet := p.wet
    linearthreshold := linearthreshold
    slope := slope
    attacksamplesinv := 1 / attacksamples
    satreleasesamplesinv := 1 / ((rate : ℝ) * 0.0025)
    dry := 1 - p.wet
    meterrelease := 1 - Real.exp (-1 / ((rate : ℝ) * 0.325))
    k := k
    kneedboffset := kneedboffset
    linearthresholdknee := linearthresholdknee
    mastergain := db2lin p.postgain * (1 / fulllevel) ^ (0.6 : ℝ)
    a := releaseCoeffA y1 y2 y3 y4
    b := releaseCoeffB y1 y2 y3 y4
    c := releaseCoeffC y1 y2 y3 y4
    d := releaseCoeffD y1 y2 y3 y4 }

/-- `M_PI * 0.5` (compressor.c line 159). -/
def ang90 : ℝ := Real.pi * 0.5

/-- `2 / M_PI` (compressor.c line 160). -/
def ang90inv : ℝ := 2 / Real.pi

/-- Fixed release spacing of 5 dB (compressor.c line 162). -/
def spacingdb : ℝ := 5

/-- Mutable loop state of `sf_compressor` (compressor.c lines 112, 154-161):
the pre-delay ring buffer with its two cursors, the envelope variables, and
the per-chunk quantities `scaleddesiredgain` / `enveloperate` which are
computed at each chunk head and reused for the 32 samples of the chunk. -/
structure CState where
  delaybuf : List sf_sample_st
  delaywritepos : ℕ
  delayreadpos : ℕ
  detectoravg : ℝ
  compgain : ℝ
  maxcompdiffdb : ℝ
  metergain : ℝ
  scaleddesiredgain : ℝ
  enveloperate : ℝ

/-- Initial loop state (compressor.c lines 82-86, 112, 154-161): zeroed
delay buffer of `delaybufsize` slots, write cursor 0, read cursor 1. -/
def initState (delaybufsize : ℕ) : CState :=
  { delaybuf := List.replicate delaybufsize ⟨0, 0⟩
    delaywritepos := 0
    delayreadpos := 1
    detectoravg := 0
    compgain := 1
    maxcompdiffdb := -1
    metergain := 1
    scaleddesiredgain := 0
    enveloperate := 1 }

/-- Per-chunk envelope-rate computation (compressor.c lines 163-185),
entered once every 32 samples.  In C, `compgain / scaleddesiredgain` is
`inf` when `scaleddesiredgain = 0`; in this real-valued model the quotient
is 0, which lands in the same (attack) branch via `0 < 0` being false. -/
def chunkUpdate (cs : Consts) (st : CState) : CState :=
  let desiredgain := st.detectoravg
  let scaleddesiredgain := Real.arcsin desiredgain * ang90inv
  let compdiffdb := lin2db (st.compgain / scaleddesiredgain)
  if compdiffdb < 0 then
    -- releasing
    let x := (clampf compdiffdb (-12) 0 + 12) * 0.25
    let releasesamples := adaptivereleasecurve x cs.a cs.b cs.c cs.d
    { st with
        maxcompdiffdb := -1
        scaleddesiredgain := scaleddesiredgain
        enveloperate := db2lin (spacingdb / releasesamples) }
  else
    -- attacking
    let maxcompdiffdb :=
      if st.maxcompdiffdb = -1 ∨ st.maxcompdiffdb < compdiffdb then compdiffdb
      else st.maxcompdiffdb
    let attenuate := if maxcompdiffdb < 0.5 then 0.5 else maxcompdiffdb
    { st with
        maxcompdiffdb := maxcompdiffdb
        scaleddesiredgain := scaleddesiredgain
        enveloperate := 1 - (0.25 / attenuate) ^ cs.attacksamplesinv }

/-- Multiply both channels of a sample by a gain (compressor.c lines 242-245). -/
def sampleScale (s : sf_sample_st) (g : ℝ) : sf_sample_st := ⟨s.L * g, s.R * g⟩

/-- The final per-sample gain (compressor.c lines 229-231):
`dry + wet * mastergain * sin(ang90 * compgain)`. -/
def gainOf (cs : Consts) (compgain : ℝ) : ℝ :=
  cs.dry + cs.wet * cs.mastergain * Real.sin (ang90 * compgain)

/-- One iteration of the inner per-sample loop (compressor.c lines 188-245).
The C names `attenuation` / `attenuationdb` appear here as `atten` /
`attendb`.  Both cursors advance modulo the buffer size exactly as in the
`for` update clause. -/
def sampleStep (cs : Consts) (st : CState) (inp : sf_sample_st) : CState × sf_sample_st :=
  let delaybuf := st.delaybuf.set st.delaywritepos inp
  let inputL := absf inp.L
  let inputR := absf inp.R
  let inputmax := if inputR < inputL then inputL else inputR
  let atten :=
    if inputmax < 0.0001 then 1
    else compcurve inputmax cs.k cs.slope cs.linearthreshold cs.linearthresholdknee
      cs.threshold cs.knee cs.kneedboffset / inputmax
  let rate :=
    if st.detectoravg < atten then
      -- releasing
      let attendb0 := -lin2db atten
      let attendb := if attendb0 < 2 then 2 else attendb0
      let dbpersample := attendb * cs.satreleasesamplesinv
      db2lin dbpersample - 1
    else 1
  let detectoravg0 := st.detectoravg + (atten - st.detectoravg) * rate
  let detectoravg := if 1 < detectoravg0 then 1 else detectoravg0
  let compgain :=
    if st.enveloperate < 1 then
      -- attack, reduce gain
      st.compgain + (st.scaleddesiredgain - st.compgain) * st.enveloperate
    else
      -- release, increase gain
      if 1 < st.compgain * st.enveloperate then 1 else st.compgain * st.enveloperate
  let premixgain := Real.sin (ang90 * compgain)
  let premixgaindb := lin2db premixgain
  let metergain :=
    if premixgaindb < st.metergain then premixgaindb
    else st.metergain + (premixgaindb - st.metergain) * cs.meterrelease
  let out := sampleScale (delaybuf.getD st.delayreadpos ⟨0, 0⟩) (gainOf cs compgain)
  ({ st with
      delaybuf := delaybuf
      delaywritepos := (st.delaywritepos + 1) % delaybuf.length
      delayreadpos := (st.delayreadpos + 1) % delaybuf.length
      detectoravg := detectoravg
      compgain := compgain
      metergain := metergain }, out)

/-- One sample of processing at absolute position `n` (compressor.c lines
163-246): at a chunk head (`n % 32 = 0`) the per-chunk quantities are
recomputed first, exactly as the outer `for` loop does. -/
def stepAt (cs : Consts) (n : ℕ) (st : CState) (inp : sf_sample_st) : CState × sf_sample_st :=
  sampleStep cs (if n % 32 = 0 then chunkUpdate cs st else st) inp

/-- The chunked processing loop (compressor.c lines 163-248) over the list
of samples it consumes, starting at absolute sample position `n`; returns
the final state together with the produced output samples. -/
def runFrom (cs : Consts) : ℕ → CState → List sf_sample_st → CState × List sf_sample_st
  | _, st, [] => (st, [])
  | n, st, inp :: rest =>
    let p := stepAt cs n st inp
    let r := runFrom cs (n + 1) p.1 rest
    (r.1, p.2 :: r.2)

/-- Pre-delay buffer size (compressor.c line 82):
`int delaybufsize = snd->rate * params.predelay;` — the float product is
truncated by the int conversion, with no minimum applied. -/
def sfDelaybufsize (snd : sf_snd_st) (p : sf_compressor_params_st) : ℕ :=
  (⌊(snd.rate : ℝ) * p.predelay⌋).toNat

/-- The samples actually processed (compressor.c lines 92-93, 163): whole
chunks of 32 only, the trailing remainder is dropped. -/
def sfInput (snd : sf_snd_st) : List sf_sample_st :=
  snd.samples.take (snd.samples.length / 32 * 32)

/-- The whole compressor (compressor.c lines 80-251), success path.
`rate` of the output: Modelled from the spec: `sf_snd_new` and the output
sound's rate initialisation are not part of `src/`; spec §6 states the
output is "at the same sample rate". -/
def sf_compressor (snd : sf_snd_st) (p : sf_compressor_params_st) : sf_snd_st :=
  { rate := snd.rate
    samples :=
      (runFrom (mkConsts snd.rate p) 0 (initState (sfDelaybufsize snd p)) (sfInput snd)).2 }

/-- The delayed input actually read back from the ring buffer at step `n`
(a consequence of compressor.c lines 154-156, 188-192 proved below): the
sample written `delaybufsize - 1` steps earlier, or silence while the
zero-initialised buffer has not wrapped yet. -/
def delayedInput (full : List sf_sample_st) (S n : ℕ) : sf_sample_st :=
  if S ≤ n + 1 then full.getD (n + 1 - S) ⟨0, 0⟩ else ⟨0, 0⟩

/-- The gain applied to output sample `n` (compressor.c line 231): the
`compgain` component of the state right after sample `n` is processed is
the very value the gain of sample `n` was computed from. -/
def gainAtSample (cs : Consts) (S : ℕ) (inp : List sf_sample_st) (n : ℕ) : ℝ :=
  gainOf cs ((runFrom cs 0 (initState S) (inp.take (n + 1))).1).compgain

/-- Resources acquired by `sf_compressor` (compressor.c lines 83, 87, 94). -/
inductive CRes where
  | delaybuf : CRes
  | sndobj : CRes
  | samplesarr : CRes
deriving DecidableEq

/-- Releasing one resource (`free` / `sf_snd_free`). -/
def freeRes (r : CRes) (held : List CRes) : List CRes := held.erase r

/-- Allocation/cleanup control flow of `sf_compressor` (compressor.c lines
82-99, 249-250).  Allocation success is an environment oracle (one Bool per
`malloc`/`sf_snd_new`).  Returns the function result (`none` models the
`NULL` return) and the list of resources still held when the function
returns that were not handed to the caller as part of the result. -/
def sf_compressor_alloc (okDelaybuf okSnd okSamples : Bool) :
    Option (List CRes) × List CRes :=
  -- line 83: delaybuf = malloc(...)
  if !okDelaybuf then (none, [])        -- lines 84-85: return NULL
  else
    let held1 := [CRes.delaybuf]
    -- line 87: out = sf_snd_new()
    if !okSnd then (none, freeRes CRes.delaybuf held1)  -- lines 88-91
    else
      let held2 := CRes.sndobj :: held1
      -- line 94: out->samples = malloc(...)
      if !okSamples then (none, freeRes CRes.delaybuf (freeRes CRes.sndobj held2))  -- lines 95-99
      else
        let held3 := CRes.samplesarr :: held2
        -- lines 249-250: free(delaybuf); return out  (out & samples pass to caller)
        (some [CRes.sndobj, CRes.samplesarr],
          (freeRes CRes.delaybuf held3).removeAll [CRes.sndobj, CRes.samplesarr])

/-! ### Basic facts about the dB/linear primitives -/

lemma db2lin_pos (x : ℝ) : 0 < db2lin x :=
  Real.rpow_pos_of_pos (by norm_num) _

lemma lin2db_db2lin (x : ℝ) : lin2db (db2lin x) = x := by
  unfold lin2db db2lin
  rw [Real.logb_rpow (by norm_num) (by norm_num)]
  ring

lemma db2lin_lin2db {x : ℝ} (hx : 0 < x) : db2lin (lin2db x) = x := by
  unfold lin2db db2lin
  rw [show (0.05 : ℝ) * (20 * Real.logb 10 x) = Real.logb 10 x by ring]
  exact Real.rpow_logb (by norm_num) (by norm_num) hx

lemma db2lin_le_db2lin_iff {x y : ℝ} : db2lin x ≤ db2lin y ↔ x ≤ y := by
  unfold db2lin
  rw [Real.rpow_le_rpow_left_iff (by norm_num)]
  constructor <;> intro h <;> linarith

lemma db2lin_le_db2lin {x y : ℝ} (h : x ≤ y) : db2lin x ≤ db2lin y :=
  db2lin_le_db2lin_iff.mpr h

lemma lin2db_le_lin2db {x y : ℝ} (hx : 0 < x) (h : x ≤ y) : lin2db x ≤ lin2db y := by
  unfold lin2db
  have h2 : Real.logb 10 x ≤ Real.logb 10 y := Real.logb_le_logb_of_le (by norm_num) hx h
  linarith

/-! ### Generic facts about the processing loop -/

lemma runFrom_length (cs : Consts) :
    ∀ (l : List sf_sample_st) (n : ℕ) (st : CState),
      (runFrom cs n st l).2.length = l.length := by
  intro l
  induction l with
  | nil => intro n st; rfl
  | cons a rest ih => intro n st; simp [runFrom, ih]

/-- C4: for every input buffer of length n and every parameter set, on
success `sf_compressor` returns a buffer whose length equals
`32 * (n / 32)` and whose sample rate equals the input's sample rate; when
`32 ∣ n` the output length equals `n`. -/
theorem c4_output_length (snd : sf_snd_st) (p : sf_compressor_params_st) :
    (sf_compressor snd p).samples.length = 32 * (snd.samples.length / 32) ∧
    (sf_compressor snd p).rate = snd.rate ∧
    (32 ∣ snd.samples.length →
      (sf_compressor snd p).samples.length = snd.samples.length) := by
  have hlen : (sf_compressor snd p).samples.length = snd.samples.length / 32 * 32 := by
    show (runFrom _ 0 _ (sfInput snd)).2.length = _
    rw [runFrom_length]
    unfold sfInput
    rw [List.length_take]
    exact min_eq_left (Nat.div_mul_le_self _ _)
  refine ⟨by rw [hlen]; exact Nat.mul_comm _ _, rfl, fun hdvd => ?_⟩
  rw [hlen, Nat.div_mul_cancel hdvd]

theorem c4_output_length_witness :
    (sf_compressor ⟨44100, List.replicate 64 ⟨0, 0⟩⟩ sf_compressor_defaults).samples.length = 64 := by
  have h := (c4_output_length ⟨44100, List.replicate 64 ⟨0, 0⟩⟩ sf_compressor_defaults).2.2
    (by norm_num)
  simpa using h

/-- C8: for every release time and zone fractions, the closed-form
coefficients a, b, c, d computed by `sf_compressor` (compressor.c lines
144-151) make the cubic `a*x^3 + b*x^2 + c*x + d` interpolate
(0, y1), (1, y2), (2, y3), (3, y4) with `yi = releasesamples * zonei`, and
they are the unique such coefficients. -/
theorem c8_release_cubic (rs z1 z2 z3 z4 : ℝ) :
    (adaptivereleasecurve 0 (releaseCoeffA (rs * z1) (rs * z2) (rs * z3) (rs * z4))
        (releaseCoeffB (rs * z1) (rs * z2) (rs * z3) (rs * z4))
        (releaseCoeffC (rs * z1) (rs * z2) (rs * z3) (rs * z4))
        (releaseCoeffD (rs * z1) (rs * z2) (rs * z3) (rs * z4)) = rs * z1 ∧
      adaptivereleasecurve 1 (releaseCoeffA (rs * z1) (rs * z2) (rs * z3) (rs * z4))
        (releaseCoeffB (rs * z1) (rs * z2) (rs * z3) (rs * z4))
        (releaseCoeffC (rs * z1) (rs * z2) (rs * z3) (rs * z4))
        (releaseCoeffD (rs * z1) (rs * z2) (rs * z3) (rs * z4)) = rs * z2 ∧
      adaptivereleasecurve 2 (releaseCoeffA (rs * z1) (rs * z2) (rs * z3) (rs * z4))
        (releaseCoeffB (rs * z1) (rs * z2) (rs * z3) (rs * z4))
        (releaseCoeffC (rs * z1) (rs * z2) (rs * z3) (rs * z4))
        (releaseCoeffD (rs * z1) (rs * z2) (rs * z3) (rs * z4)) = rs * z3 ∧
      adaptivereleasecurve 3 (releaseCoeffA (rs * z1) (rs * z2) (rs * z3) (rs * z4))
        (releaseCoeffB (rs * z1) (rs * z2) (rs * z3) (rs * z4))
        (releaseCoeffC (rs * z1) (rs * z2) (rs * z3) (rs * z4))
        (releaseCoeffD (rs * z1) (rs * z2) (rs * z3) (rs * z4)) = rs * z4) ∧
    ∀ a' b' c' d',
      adaptivereleasecurve 0 a' b' c' d' = rs * z1 →
      adaptivereleasecurve 1 a' b' c' d' = rs * z2 →
      adaptivereleasecurve 2 a' b' c' d' = rs * z3 →
      adaptivereleasecurve 3 a' b' c' d' = rs * z4 →
      a' = releaseCoeffA (rs * z1) (rs * z2) (rs * z3) (rs * z4) ∧
      b' = releaseCoeffB (rs * z1) (rs * z2) (rs * z3) (rs * z4) ∧
      c' = releaseCoeffC (rs * z1) (rs * z2) (rs * z3) (rs * z4) ∧
      d' = releaseCoeffD (rs * z1) (rs * z2) (rs * z3) (rs * z4) := by
  constructor
  · refine ⟨?_, ?_, ?_, ?_⟩ <;>
      · simp only [adaptivereleasecurve, releaseCoeffA, releaseCoeffB, releaseCoeffC,
          releaseCoeffD]
        ring
  · intro a' b' c' d' h0 h1 h2 h3
    simp only [adaptivereleasecurve] at h0 h1 h2 h3
    norm_num at h0 h1 h2 h3
    refine ⟨?_, ?_, ?_, ?_⟩ <;>
      · simp only [releaseCoeffA, releaseCoeffB, releaseCoeffC, releaseCoeffD]
        linarith

theorem c8_release_cubic_witness :
    adaptivereleasecurve 0 (releaseCoeffA (1 * 1) (1 * 2) (1 * 3) (1 * 4))
      (releaseCoeffB (1 * 1) (1 * 2) (1 * 3) (1 * 4))
      (releaseCoeffC (1 * 1) (1 * 2) (1 * 3) (1 * 4))
      (releaseCoeffD (1 * 1) (1 * 2) (1 * 3) (1 * 4)) = 1 * 1 :=
  (c8_release_cubic 1 1 2 3 4).1.1

/-- C9: if any of the three allocations fails, `sf_compressor` returns the
failure signal (`none`, modelling `NULL`) and every resource acquired up to
that point has been released again: nothing is leaked and no partial buffer
is returned. -/
theorem c9_alloc_failure_clean (okDelaybuf okSnd okSamples : Bool)
    (h : okDelaybuf = false ∨ okSnd = false ∨ okSamples = false) :
    (sf_compressor_alloc okDelaybuf okSnd okSamples).1 = none ∧
    (sf_compressor_alloc okDelaybuf okSnd okSamples).2 = [] := by
  revert h
  revert okDelaybuf okSnd okSamples
  decide

theorem c9_alloc_failure_clean_witness :
    (sf_compressor_alloc false true true).1 = none ∧
    (sf_compressor_alloc false true true).2 = [] :=
  c9_alloc_failure_clean false true true (Or.inl rfl)

/-- C2 (evidence of the code bug): the code computes the delay buffer size
by truncating `rate * predelay` with no minimum clamp.  At predelay = 0 the
size is 0, below the claimed minimum of 1, so the per-sample
`% delaybufsize` in C divides by zero.  The size is also truncated rather
than rounded: at 44100 Hz and predelay 0.006 s the code yields 264 slots
while `round(44100 * 0.006) = 265`. -/
theorem c2_delaybufsize_bug :
    sfDelaybufsize ⟨44100, []⟩ { sf_compressor_defaults with predelay := 0 } = 0 ∧
    ¬ 1 ≤ sfDelaybufsize ⟨44100, []⟩ { sf_compressor_defaults with predelay := 0 } ∧
    sfDelaybufsize ⟨44100, []⟩ sf_compressor_defaults = 264 ∧
    round ((44100 : ℝ) * (0.006 : ℝ)) = 265 := by
  have h0 : sfDelaybufsize ⟨44100, []⟩ { sf_compressor_defaults with predelay := 0 } = 0 := by
    unfold sfDelaybufsize
    norm_num
  have h1 : sfDelaybufsize ⟨44100, []⟩ sf_compressor_defaults = 264 := by
    unfold sfDelaybufsize
    norm_num [sf_compressor_defaults]
    decide
  refine ⟨h0, by rw [h0]; decide, h1, ?_⟩
  rw [round_eq]
  norm_num

/-! ### The ring buffer: contents and cursors

`DelayInv full S n st` says: after the first `n` samples of `full` have
been processed, the buffer has `S` slots, the cursors sit at `n % S`
(write) and `(n+1) % S` (read), and the slot that will be overwritten `d`
steps from now holds the input sample from `S - d` steps ago (silence if
processing has not yet run that long). -/

def DelayInv (full : List sf_sample_st) (S n : ℕ) (st : CState) : Prop :=
  st.delaybuf.length = S ∧
  st.delaywritepos = n % S ∧
  st.delayreadpos = (n + 1) % S ∧
  ∀ d, d < S →
    st.delaybuf.getD ((n + d) % S) ⟨0, 0⟩ =
      if S - d ≤ n then full.getD (n - (S - d)) ⟨0, 0⟩ else ⟨0, 0⟩

lemma chunkUpdate_delaybuf (cs : Consts) (st : CState) :
    (chunkUpdate cs st).delaybuf = st.delaybuf := by
  unfold chunkUpdate
  dsimp only
  split <;> rfl

lemma chunkUpdate_delaywritepos (cs : Consts) (st : CState) :
    (chunkUpdate cs st).delaywritepos = st.delaywritepos := by
  unfold chunkUpdate
  dsimp only
  split <;> rfl

lemma chunkUpdate_delayreadpos (cs : Consts) (st : CState) :
    (chunkUpdate cs st).delayreadpos = st.delayreadpos := by
  unfold chunkUpdate
  dsimp only
  split <;> rfl

lemma sampleStep_fst_delaybuf (cs : Consts) (st : CState) (inp : sf_sample_st) :
    (sampleStep cs st inp).1.delaybuf = st.delaybuf.set st.delaywritepos inp := rfl

lemma sampleStep_fst_delaywritepos (cs : Consts) (st : CState) (inp : sf_sample_st) :
    (sampleStep cs st inp).1.delaywritepos = (st.delaywritepos + 1) % st.delaybuf.length := by
  show (st.delaywritepos + 1) % (st.delaybuf.set st.delaywritepos inp).length = _
  rw [List.length_set]

lemma sampleStep_fst_delayreadpos (cs : Consts) (st : CState) (inp : sf_sample_st) :
    (sampleStep cs st inp).1.delayreadpos = (st.delayreadpos + 1) % st.delaybuf.length := by
  show (st.delayreadpos + 1) % (st.delaybuf.set st.delaywritepos inp).length = _
  rw [List.length_set]

lemma sampleStep_snd (cs : Consts) (st : CState) (inp : sf_sample_st) :
    (sampleStep cs st inp).2 =
      sampleScale ((st.delaybuf.set st.delaywritepos inp).getD st.delayreadpos ⟨0, 0⟩)
        (gainOf cs (sampleStep cs st inp).1.compgain) := rfl

/-- Incrementing a position by `d` steps with `0 < d < S` never returns to
the same slot. -/
lemma add_mod_ne (n d S : ℕ) (hd0 : 0 < d) (hdS : d < S) : (n + d) % S ≠ n % S := by
  intro h
  have hmod : n ≡ n + d [MOD S] := Nat.ModEq.symm h
  have hdvd : S ∣ d := by
    have := (Nat.modEq_iff_dvd' (Nat.le_add_right n d)).mp hmod
    simpa using this
  exact absurd (Nat.le_of_dvd hd0 hdvd) (not_le.mpr hdS)

lemma delayInv_init (full : List sf_sample_st) {S : ℕ} (hS : 2 ≤ S) :
    DelayInv full S 0 (initState S) := by
  refine ⟨by simp [initState], by simp [initState], ?_, ?_⟩
  · show (1 : ℕ) = 1 % S
    rw [Nat.mod_eq_of_lt (by omega)]
  · intro d hd
    show (List.replicate S (⟨0, 0⟩ : sf_sample_st)).getD ((0 + d) % S) ⟨0, 0⟩ = _
    rw [Nat.zero_add, Nat.mod_eq_of_lt hd, if_neg (by omega)]
    rw [List.getD_eq_getElem?_getD, List.getElem?_replicate, if_pos hd]
    rfl

lemma delayInv_chunkUpdate (cs : Consts) {full : List sf_sample_st} {S n : ℕ} {st : CState}
    (h : DelayInv full S n st) : DelayInv full S n (chunkUpdate cs st) := by
  obtain ⟨hlen, hw, hr, hbuf⟩ := h
  exact ⟨by rw [chunkUpdate_delaybuf]; exact hlen,
    by rw [chunkUpdate_delaywritepos]; exact hw,
    by rw [chunkUpdate_delayreadpos]; exact hr,
    fun d hd => by rw [chunkUpdate_delaybuf]; exact hbuf d hd⟩

lemma delayInv_sampleStep (cs : Consts) {full : List sf_sample_st} {S n : ℕ} (hS : 2 ≤ S)
    {st : CState} (h : DelayInv full S n st) :
    DelayInv full S (n + 1) (sampleStep cs st (full.getD n ⟨0, 0⟩)).1 := by
  obtain ⟨hlen, hw, hr, hbuf⟩ := h
  have hS0 : 0 < S := by omega
  refine ⟨?_, ?_, ?_, ?_⟩
  · rw [sampleStep_fst_delaybuf, List.length_set]; exact hlen
  · rw [sampleStep_fst_delaywritepos, hlen, hw, Nat.mod_add_mod]
  · rw [sampleStep_fst_delayreadpos, hlen, hr, Nat.mod_add_mod]
  · intro d hd
    rw [sampleStep_fst_delaybuf, hw]
    by_cases hlast : d = S - 1
    · subst hlast
      rw [show n + 1 + (S - 1) = n + S by omega, Nat.add_mod_right]
      rw [List.getD_eq_getElem?_getD, List.getElem?_set_self (by rw [hlen]; exact Nat.mod_lt _ hS0)]
      rw [if_pos (by omega)]
      simp [show n + 1 - (S - (S - 1)) = n by omega]
    · have hd1 : d + 1 < S := by omega
      have hne : (n + 1 + d) % S ≠ n % S := by
        rw [show n + 1 + d = n + (d + 1) by omega]
        exact add_mod_ne n (d + 1) S (by omega) hd1
      rw [List.getD_eq_getElem?_getD, List.getElem?_set_ne (fun hx => hne hx.symm),
        ← List.getD_eq_getElem?_getD]
      have := hbuf (d + 1) hd1
      rw [show n + (d + 1) = n + 1 + d by omega] at this
      rw [this]
      by_cases hc : S - d ≤ n + 1
      · rw [if_pos (by omega), if_pos hc]
        congr 1
        omega
      · rw [if_neg (by omega), if_neg hc]

lemma delayInv_stepAt (cs : Consts) {full : List sf_sample_st} {S n : ℕ} (hS : 2 ≤ S)
    {st : CState} (h : DelayInv full S n st) :
    DelayInv full S (n + 1) (stepAt cs n st (full.getD n ⟨0, 0⟩)).1 := by
  unfold stepAt
  split
  · exact delayInv_sampleStep cs hS (delayInv_chunkUpdate cs h)
  · exact delayInv_sampleStep cs hS h

/-- The `i`-th output of the loop is the output of a single `stepAt` run
from the state reached after the first `i` consumed samples, and the state
after `i + 1` samples is that step's new state. -/
lemma runFrom_take_succ (cs : Consts) :
    ∀ (l : List sf_sample_st) (n : ℕ) (st : CState) (i : ℕ), i < l.length →
      (runFrom cs n st l).2.getD i ⟨0, 0⟩ =
        (stepAt cs (n + i) (runFrom cs n st (l.take i)).1 (l.getD i ⟨0, 0⟩)).2 ∧
      (runFrom cs n st (l.take (i + 1))).1 =
        (stepAt cs (n + i) (runFrom cs n st (l.take i)).1 (l.getD i ⟨0, 0⟩)).1 := by
  intro l
  induction l with
  | nil => intro n st i hi; simp at hi
  | cons a rest ih =>
    intro n st i hi
    cases i with
    | zero =>
      constructor
      · simp [runFrom]
      · simp [runFrom]
    | succ i =>
      have hi' : i < rest.length := by simpa using hi
      have h := ih (n + 1) (stepAt cs n st a).1 i hi'
      have harith : n + 1 + i = n + (i + 1) := by omega
      constructor
      · have h1 := h.1
        rw [harith] at h1
        simpa [runFrom] using h1
      · have h2 := h.2
        rw [harith] at h2
        simpa [runFrom] using h2

/-- The delay invariant propagated along any consistent segment of inputs. -/
lemma delayInv_runFrom (cs : Consts) (full : List sf_sample_st) {S : ℕ} (hS : 2 ≤ S) :
    ∀ (l : List sf_sample_st) (n : ℕ) (st : CState),
      (∀ i, i < l.length → l.getD i ⟨0, 0⟩ = full.getD (n + i) ⟨0, 0⟩) →
      DelayInv full S n st →
      DelayInv full S (n + l.length) (runFrom cs n st l).1 := by
  intro l
  induction l with
  | nil => intro n st _ h; simpa [runFrom] using h
  | cons a rest ih =>
    intro n st hcons h
    have ha : a = full.getD n ⟨0, 0⟩ := by simpa using hcons 0 (by simp)
    have h1 : DelayInv full S (n + 1) (stepAt cs n st a).1 := by
      rw [ha]; exact delayInv_stepAt cs hS h
    have hrest : ∀ i, i < rest.length → rest.getD i ⟨0, 0⟩ = full.getD (n + 1 + i) ⟨0, 0⟩ := by
      intro i hi
      have := hcons (i + 1) (by simpa using hi)
      rw [show n + (i + 1) = n + 1 + i by omega] at this
      simpa using this
    have := ih (n + 1) (stepAt cs n st a).1 hrest h1
    rw [show n + 1 + rest.length = n + (rest.length + 1) by omega] at this
    simpa [runFrom] using this

/-- Characterisation of the compressor loop's output (compressor.c lines
188-245): output sample `n` is the input sample delayed through the ring
buffer — i.e. the input from `S - 1` samples earlier, silence while the
buffer has not wrapped — multiplied by the per-sample gain. -/
lemma runFrom_out_char (cs : Consts) (full : List sf_sample_st) {S : ℕ} (hS : 2 ≤ S)
    (n : ℕ) (hn : n < full.length) :
    (runFrom cs 0 (initState S) full).2.getD n ⟨0, 0⟩ =
      sampleScale (delayedInput full S n) (gainOf cs
        ((runFrom cs 0 (initState S) (full.take (n + 1))).1).compgain) := by
  have hchar := runFrom_take_succ cs full 0 (initState S) n hn
  have h1 := hchar.1
  rw [Nat.zero_add] at h1
  rw [h1]
  -- the state after the first n samples satisfies the delay invariant
  have htake : ∀ i, i < (full.take n).length → (full.take n).getD i ⟨0, 0⟩ = full.getD (0 + i) ⟨0, 0⟩ := by
    intro i hi
    rw [List.length_take] at hi
    rw [Nat.zero_add, List.getD_eq_getElem?_getD, List.getD_eq_getElem?_getD,
      List.getElem?_take_of_lt (by omega)]
  have hinv : DelayInv full S n (runFrom cs 0 (initState S) (full.take n)).1 := by
    have := delayInv_runFrom cs full hS (full.take n) 0 (initState S) htake
      (delayInv_init full hS)
    rwa [Nat.zero_add, List.length_take, min_eq_left (le_of_lt hn)] at this
  set stn := (runFrom cs 0 (initState S) (full.take n)).1 with hstn
  -- the chunk-head adjustment does not touch the buffer fields
  have hinv' : DelayInv full S n (if n % 32 = 0 then chunkUpdate cs stn else stn) := by
    split
    · exact delayInv_chunkUpdate cs hinv
    · exact hinv
  set st' := (if n % 32 = 0 then chunkUpdate cs stn else stn) with hst'
  have hstep : stepAt cs n stn (full.getD n ⟨0, 0⟩) = sampleStep cs st' (full.getD n ⟨0, 0⟩) := rfl
  rw [hstep, sampleStep_snd]
  -- read value: slot (n+1) % S of the freshly written buffer
  have hpost := delayInv_sampleStep cs hS hinv'
  have hread : (st'.delaybuf.set st'.delaywritepos (full.getD n ⟨0, 0⟩)).getD
      st'.delayreadpos ⟨0, 0⟩ = delayedInput full S n := by
    have hcontent := hpost.2.2.2 0 (by omega)
    rw [sampleStep_fst_delaybuf] at hcontent
    rw [hinv'.2.2.1]
    rw [show (n + 1 + 0) % S = (n + 1) % S by rw [Nat.add_zero]] at hcontent
    rw [hcontent]
    unfold delayedInput
    by_cases hc : S ≤ n + 1
    · rw [if_pos (by omega), if_pos hc]
      congr 1
    · rw [if_neg (by omega), if_neg hc]
  rw [hread]
  -- the gain: the state after n+1 samples is exactly the stepped state
  have h2 := hchar.2
  rw [Nat.zero_add] at h2
  rw [h2, hstep]

lemma sampleScale_one (s : sf_sample_st) : sampleScale s 1 = s := by
  unfold sampleScale
  cases s
  simp

lemma sampleScale_zero (g : ℝ) : sampleScale ⟨0, 0⟩ g = ⟨0, 0⟩ := by
  unfold sampleScale
  simp

lemma gainOf_wet_zero {rate : ℕ} {p : sf_compressor_params_st} (hwet : p.wet = 0) (g : ℝ) :
    gainOf (mkConsts rate p) g = 1 := by
  unfold gainOf mkConsts
  dsimp only
  rw [hwet]
  ring

lemma sfInput_length (snd : sf_snd_st) :
    (sfInput snd).length = snd.samples.length / 32 * 32 := by
  unfold sfInput
  rw [List.length_take]
  exact min_eq_left (Nat.div_mul_le_self _ _)

lemma sfInput_getD (snd : sf_snd_st) {i : ℕ} (hi : i < snd.samples.length / 32 * 32) :
    (sfInput snd).getD i ⟨0, 0⟩ = snd.samples.getD i ⟨0, 0⟩ := by
  unfold sfInput
  rw [List.getD_eq_getElem?_getD, List.getD_eq_getElem?_getD, List.getElem?_take_of_lt hi]

lemma sf_compressor_samples (snd : sf_snd_st) (p : sf_compressor_params_st) :
    (sf_compressor snd p).samples =
      (runFrom (mkConsts snd.rate p) 0 (initState (sfDelaybufsize snd p)) (sfInput snd)).2 := rfl

/-- The central output shape fact, phrased on `sf_compressor` itself. -/
lemma sf_compressor_out_char (snd : sf_snd_st) (p : sf_compressor_params_st)
    (hS : 2 ≤ sfDelaybufsize snd p) {n : ℕ} (hn : n < snd.samples.length / 32 * 32) :
    (sf_compressor snd p).samples.getD n ⟨0, 0⟩ =
      sampleScale (delayedInput (sfInput snd) (sfDelaybufsize snd p) n)
        (gainAtSample (mkConsts snd.rate p) (sfDelaybufsize snd p) (sfInput snd) n) := by
  rw [sf_compressor_samples]
  exact runFrom_out_char (mkConsts snd.rate p) (sfInput snd) hS n
    (by rw [sfInput_length]; exact hn)

/-! ### Concrete inputs used by counterexamples and witnesses -/

/-- A 32-sample input holding a unit impulse at sample 0. -/
def impulseInput : List sf_sample_st := ⟨1, 1⟩ :: List.replicate 31 ⟨0, 0⟩

/-- Impulse sound at 1 Hz. -/
def exSnd : sf_snd_st := ⟨1, impulseInput⟩

/-- Parameters with `wet = 0` and `predelay = 4` s, giving a 4-slot delay
buffer at 1 Hz. -/
def exParams : sf_compressor_params_st :=
  { sf_compressor_defaults with wet := 0, predelay := 4 }

/-- An all-zero 32-sample sound at 1 Hz. -/
def zeroSnd : sf_snd_st := ⟨1, List.replicate 32 ⟨0, 0⟩⟩

lemma exSnd_bufsize : sfDelaybufsize exSnd exParams = 4 := by
  unfold sfDelaybufsize exSnd exParams
  norm_num
  decide

lemma exSnd_length : exSnd.samples.length = 32 := by
  unfold exSnd impulseInput
  simp

lemma exSnd_input : sfInput exSnd = impulseInput := by
  unfold sfInput
  rw [exSnd_length]
  exact List.take_of_length_le (by rw [exSnd_length])

/-- C1 is false as stated: with `wet = 0` but a non-trivial predelay
(4-slot buffer) and a 32-sample input whose first sample is 1, the first
output sample is 0, not the first input sample. -/
theorem c1_counterexample :
    ((sf_compressor exSnd exParams).samples.getD 0 ⟨0, 0⟩).L = 0 ∧
    (exSnd.samples.getD 0 ⟨0, 0⟩).L = 1 ∧
    exParams.wet = 0 ∧ (32 : ℕ) ∣ exSnd.samples.length := by
  refine ⟨?_, rfl, rfl, by rw [exSnd_length]⟩
  have h := sf_compressor_out_char exSnd exParams (by rw [exSnd_bufsize]; omega)
    (n := 0) (by rw [exSnd_length]; omega)
  rw [h]
  rw [show delayedInput (sfInput exSnd) (sfDelaybufsize exSnd exParams) 0 = ⟨0, 0⟩ by
    unfold delayedInput; rw [exSnd_bufsize, if_neg (by omega)]]
  rw [sampleScale_zero]

/-- C1 (amended): with `wet = 0` and a delay buffer of `S ≥ 2` slots the
per-sample gain is identically 1, so every output sample equals the input
sample `S - 1` positions earlier (zero while the zero-initialised buffer
has not wrapped); the output is the input delayed by `S - 1` samples, not
the input itself. -/
theorem c1_wet_zero_delayed_identity (snd : sf_snd_st) (p : sf_compressor_params_st)
    (hwet : p.wet = 0) (hS : 2 ≤ sfDelaybufsize snd p) (n : ℕ)
    (hn : n < snd.samples.length / 32 * 32) :
    (sf_compressor snd p).samples.getD n ⟨0, 0⟩ =
      delayedInput (sfInput snd) (sfDelaybufsize snd p) n := by
  rw [sf_compressor_out_char snd p hS hn]
  unfold gainAtSample
  rw [gainOf_wet_zero hwet, sampleScale_one]

theorem c1_wet_zero_delayed_identity_witness :
    (sf_compressor exSnd exParams).samples.getD 0 ⟨0, 0⟩ =
      delayedInput (sfInput exSnd) (sfDelaybufsize exSnd exParams) 0 :=
  c1_wet_zero_delayed_identity exSnd exParams rfl
    (by rw [exSnd_bufsize]; omega) 0 (by rw [exSnd_length]; omega)

/-- C3 is false as stated: with a 4-slot delay buffer (S = 4) the unit
impulse at input sample 0 appears at output sample 3 = S - 1, while output
sample S = 4 is zero — the delay is S - 1 samples, not S. -/
theorem c3_counterexample :
    ((sf_compressor exSnd exParams).samples.getD 3 ⟨0, 0⟩).L = 1 ∧
    ((sf_compressor exSnd exParams).samples.getD 4 ⟨0, 0⟩).L = 0 := by
  constructor
  · have h := sf_compressor_out_char exSnd exParams (by rw [exSnd_bufsize]; omega)
      (n := 3) (by rw [exSnd_length]; omega)
    rw [h]
    rw [show delayedInput (sfInput exSnd) (sfDelaybufsize exSnd exParams) 3 = ⟨1, 1⟩ by
      unfold delayedInput
      rw [exSnd_bufsize, if_pos (by omega), exSnd_input]
      rfl]
    unfold gainAtSample
    rw [gainOf_wet_zero rfl, sampleScale_one]
  · have h := sf_compressor_out_char exSnd exParams (by rw [exSnd_bufsize]; omega)
      (n := 4) (by rw [exSnd_length]; omega)
    rw [h]
    rw [show delayedInput (sfInput exSnd) (sfDelaybufsize exSnd exParams) 4 = ⟨0, 0⟩ by
      unfold delayedInput
      rw [exSnd_bufsize, if_pos (by omega), exSnd_input]
      rfl]
    rw [sampleScale_zero]

/-- C3 (amended): for a unit impulse at input sample 0 and a delay buffer
of `S ≥ 2` slots, the impulse appears in the output at index `S - 1` —
delayed by exactly `S - 1` samples (the read cursor leads the write cursor
by one slot of the `S`-slot ring) — scaled by the per-sample gain computed
while analysing that impulse; every other output sample is zero. -/
theorem c3_impulse_delay (snd : sf_snd_st) (p : sf_compressor_params_st)
    (hS : 2 ≤ sfDelaybufsize snd p)
    (h0 : snd.samples.getD 0 ⟨0, 0⟩ = ⟨1, 1⟩)
    (hrest : ∀ i, 1 ≤ i → snd.samples.getD i ⟨0, 0⟩ = ⟨0, 0⟩)
    (n : ℕ) (hn : n < snd.samples.length / 32 * 32) :
    (sf_compressor snd p).samples.getD n ⟨0, 0⟩ =
      if n = sfDelaybufsize snd p - 1 then
        sampleScale ⟨1, 1⟩
          (gainAtSample (mkConsts snd.rate p) (sfDelaybufsize snd p) (sfInput snd) n)
      else ⟨0, 0⟩ := by
  rw [sf_compressor_out_char snd p hS hn]
  by_cases hcase : n = sfDelaybufsize snd p - 1
  · rw [if_pos hcase]
    congr 1
    unfold delayedInput
    rw [if_pos (by omega), sfInput_getD snd (by omega)]
    rw [show n + 1 - sfDelaybufsize snd p = 0 by omega]
    exact h0
  · rw [if_neg hcase]
    rw [show delayedInput (sfInput snd) (sfDelaybufsize snd p) n = ⟨0, 0⟩ by
      unfold delayedInput
      by_cases hc : sfDelaybufsize snd p ≤ n + 1
      · rw [if_pos hc, sfInput_getD snd (by omega)]
        exact hrest _ (by omega)
      · rw [if_neg hc]]
    rw [sampleScale_zero]

theorem c3_impulse_delay_witness :
    (sf_compressor exSnd exParams).samples.getD 0 ⟨0, 0⟩ =
      if 0 = sfDelaybufsize exSnd exParams - 1 then
        sampleScale ⟨1, 1⟩
          (gainAtSample (mkConsts exSnd.rate exParams) (sfDelaybufsize exSnd exParams)
            (sfInput exSnd) 0)
      else ⟨0, 0⟩ :=
  c3_impulse_delay exSnd exParams (by rw [exSnd_bufsize]; omega) rfl
    (by
      intro i hi
      show impulseInput.getD i ⟨0, 0⟩ = ⟨0, 0⟩
      unfold impulseInput
      match i, hi with
      | i + 1, _ =>
        rw [List.getD_cons_succ, List.getD_eq_getElem?_getD, List.getElem?_replicate]
        split <;> rfl)
    0 (by rw [exSnd_length]; omega)

/-- C10: with a delay buffer of `S ≥ 2` slots, each of the first `S - 1`
output samples is exactly zero on both channels regardless of the input:
those samples read slots of the zero-initialised buffer that have not been
written yet. -/
theorem c10_initial_silence (snd : sf_snd_st) (p : sf_compressor_params_st)
    (hS : 2 ≤ sfDelaybufsize snd p) (n : ℕ)
    (hn : n < snd.samples.length / 32 * 32) (hn2 : n + 1 < sfDelaybufsize snd p) :
    (sf_compressor snd p).samples.getD n ⟨0, 0⟩ = ⟨0, 0⟩ := by
  rw [sf_compressor_out_char snd p hS hn]
  rw [show delayedInput (sfInput snd) (sfDelaybufsize snd p) n = ⟨0, 0⟩ by
    unfold delayedInput
    rw [if_neg (by omega)]]
  rw [sampleScale_zero]

theorem c10_initial_silence_witness :
    (sf_compressor exSnd exParams).samples.getD 0 ⟨0, 0⟩ = ⟨0, 0⟩ :=
  c10_initial_silence exSnd exParams (by rw [exSnd_bufsize]; omega) 0
    (by rw [exSnd_length]; omega) (by rw [exSnd_bufsize]; omega)

/-- C7: an all-zero input produces an all-zero output (delay buffer of
`S ≥ 2` slots; for smaller buffers the C code's index arithmetic is
already undefined, see C2).  In the per-sample computation an input maximum
of 0 falls below the 0.0001 near-silence bound and takes the unity
attenuation branch, so no division by the zero input maximum occurs. -/
theorem c7_silence_in_silence_out (snd : sf_snd_st) (p : sf_compressor_params_st)
    (hzero : ∀ s ∈ snd.samples, s = (⟨0, 0⟩ : sf_sample_st))
    (hS : 2 ≤ sfDelaybufsize snd p) (n : ℕ)
    (hn : n < snd.samples.length / 32 * 32) :
    (sf_compressor snd p).samples.getD n ⟨0, 0⟩ = ⟨0, 0⟩ := by
  rw [sf_compressor_out_char snd p hS hn]
  rw [show delayedInput (sfInput snd) (sfDelaybufsize snd p) n = ⟨0, 0⟩ by
    unfold delayedInput
    by_cases hc : sfDelaybufsize snd p ≤ n + 1
    · rw [if_pos hc, sfInput_getD snd (by omega)]
      by_cases hidx : n + 1 - sfDelaybufsize snd p < snd.samples.length
      · apply hzero
        rw [List.getD_eq_getElem?_getD, List.getElem?_eq_getElem hidx]
        exact List.getElem_mem hidx
      · rw [List.getD_eq_getElem?_getD, List.getElem?_eq_none (by omega)]
        rfl
    · rw [if_neg hc]]
  rw [sampleScale_zero]

theorem c7_silence_in_silence_out_witness :
    (sf_compressor zeroSnd exParams).samples.getD 0 ⟨0, 0⟩ = ⟨0, 0⟩ :=
  c7_silence_in_silence_out zeroSnd exParams
    (fun s hs => List.eq_of_mem_replicate hs)
    (by unfold sfDelaybufsize zeroSnd exParams; norm_num) 0
    (by unfold zeroSnd; simp)

/-! ### The compression curve: helper facts for monotonicity / continuity -/

lemma db2lin_lt_db2lin {x y : ℝ} (h : x < y) : db2lin x < db2lin y := by
  unfold db2lin
  exact (Real.rpow_lt_rpow_left_iff (by norm_num)).mpr (by linarith)

lemma ksearchIter_pos (x s lt : ℝ) (n : ℕ) :
    0 < (ksearchIter x s lt n).k ∧ 0 < (ksearchIter x s lt n).mink ∧
      0 < (ksearchIter x s lt n).maxk := by
  induction n with
  | zero =>
    refine ⟨by norm_num [ksearchIter], by norm_num [ksearchIter], by norm_num [ksearchIter]⟩
  | succ n ih =>
    obtain ⟨hk, hmin, hmax⟩ := ih
    show 0 < (ksearchStep x s lt (ksearchIter x s lt n)).k ∧
      0 < (ksearchStep x s lt (ksearchIter x s lt n)).mink ∧
      0 < (ksearchStep x s lt (ksearchIter x s lt n)).maxk
    unfold ksearchStep
    by_cases hc : kneeslope x (ksearchIter x s lt n).k lt < s
    · rw [if_pos hc]
      exact ⟨Real.sqrt_pos.mpr (mul_pos hmin hk), hmin, hk⟩
    · rw [if_neg hc]
      exact ⟨Real.sqrt_pos.mpr (mul_pos hk hmax), hk, hmax⟩

lemma computeK_pos (thr knee ratio : ℝ) : 0 < computeK thr knee ratio := by
  unfold computeK
  split
  · exact (ksearchIter_pos _ _ _ 15).1
  · norm_num

lemma kneecurve_self {k : ℝ} (lt : ℝ) (hk : k ≠ 0) : kneecurve lt k lt = lt := by
  unfold kneecurve
  simp

lemma kneecurve_mono {k lt x y : ℝ} (hk : 0 < k) (hxy : x ≤ y) :
    kneecurve x k lt ≤ kneecurve y k lt := by
  unfold kneecurve
  have h1 : Real.exp (-k * (y - lt)) ≤ Real.exp (-k * (x - lt)) :=
    Real.exp_le_exp.mpr (by nlinarith)
  have h2 : (1 - Real.exp (-k * (x - lt))) / k ≤ (1 - Real.exp (-k * (y - lt))) / k :=
    (div_le_div_right hk).mpr (by linarith)
  linarith

lemma kneecurve_pos {k lt x : ℝ} (hk : 0 < k) (hlt : 0 < lt) (hx : lt ≤ x) :
    0 < kneecurve x k lt := by
  have h := @kneecurve_mono k lt lt x hk hx
  rw [kneecurve_self lt (ne_of_gt hk)] at h
  linarith

lemma kneecurve_le_self {k lt x : ℝ} (hk : 0 < k) (hx : lt ≤ x) :
    kneecurve x k lt ≤ x := by
  unfold kneecurve
  have key : 1 - Real.exp (-k * (x - lt)) ≤ k * (x - lt) := by
    have h := Real.add_one_le_exp (-(k * (x - lt)))
    have : -k * (x - lt) = -(k * (x - lt)) := by ring
    rw [this]
    linarith
  have h2 : (1 - Real.exp (-k * (x - lt))) / k ≤ x - lt := by
    rw [div_le_iff hk]
    linarith [key]
  linarith

/-- Branch-selection rewrites for `compcurve`. -/
lemma compcurve_below {x k slope lt ltk thr knee kdbo : ℝ} (h : x < lt) :
    compcurve x k slope lt ltk thr knee kdbo = x := by
  unfold compcurve
  rw [if_pos h]

lemma compcurve_noknee {x k slope lt ltk thr knee kdbo : ℝ} (h1 : ¬ x < lt)
    (h2 : knee ≤ 0) :
    compcurve x k slope lt ltk thr knee kdbo =
      db2lin (thr + slope * (lin2db x - thr)) := by
  unfold compcurve
  rw [if_neg h1, if_pos h2]

lemma compcurve_knee_lo {x k slope lt ltk thr knee kdbo : ℝ} (h1 : ¬ x < lt)
    (h2 : ¬ knee ≤ 0) (h3 : x < ltk) :
    compcurve x k slope lt ltk thr knee kdbo = kneecurve x k lt := by
  unfold compcurve
  rw [if_neg h1, if_neg h2, if_pos h3]

lemma compcurve_knee_hi {x k slope lt ltk thr knee kdbo : ℝ} (h1 : ¬ x < lt)
    (h2 : ¬ knee ≤ 0) (h3 : ¬ x < ltk) :
    compcurve x k slope lt ltk thr knee kdbo =
      db2lin (kdbo + slope * (lin2db x - thr - knee)) := by
  unfold compcurve
  rw [if_neg h1, if_neg h2, if_neg h3]

/-- The straight post-threshold dB line is monotone for nonneg slope. -/
lemma dbline_mono {slope A B x y : ℝ} (hs : 0 ≤ slope) (hx : 0 < x) (hxy : x ≤ y) :
    db2lin (A + slope * (lin2db x - B)) ≤ db2lin (A + slope * (lin2db y - B)) := by
  apply db2lin_le_db2lin
  have h := lin2db_le_lin2db hx hxy
  nlinarith

/-- The no-knee ratio line passes through the threshold point. -/
lemma dbline_at_threshold (thr slope : ℝ) :
    db2lin (thr + slope * (lin2db (db2lin thr) - thr)) = db2lin thr := by
  rw [lin2db_db2lin]
  norm_num

/-- Continuity at the top of the knee: the knee branch and the post-knee
branch agree exactly at `linearthresholdknee` (in exact arithmetic). -/
lemma knee_boundary_exact {thr knee k slope : ℝ} (hk : 0 < k) (hknee : 0 ≤ knee) :
    db2lin (lin2db (kneecurve (db2lin (thr + knee)) k (db2lin thr)) +
        slope * (lin2db (db2lin (thr + knee)) - thr - knee)) =
      kneecurve (db2lin (thr + knee)) k (db2lin thr) := by
  rw [lin2db_db2lin]
  rw [show lin2db (kneecurve (db2lin (thr + knee)) k (db2lin thr)) +
      slope * (thr + knee - thr - knee) =
      lin2db (kneecurve (db2lin (thr + knee)) k (db2lin thr)) by ring]
  exact db2lin_lin2db
    (kneecurve_pos hk (db2lin_pos thr) (db2lin_le_db2lin (by linarith)))

/-- Monotonicity of the far post-knee line (argument written as in the
source: `lin2db x - threshold - knee`). -/
lemma dbline3_mono {slope A thr knee x y : ℝ} (hs : 0 ≤ slope) (hx : 0 < x) (hxy : x ≤ y) :
    db2lin (A + slope * (lin2db x - thr - knee)) ≤
      db2lin (A + slope * (lin2db y - thr - knee)) := by
  apply db2lin_le_db2lin
  have h := lin2db_le_lin2db hx hxy
  nlinarith

/-- The compression curve is monotone non-decreasing on `[0, ∞)` for any
derived constants of the shape the code produces. -/
lemma compcurve_monotoneOn {thr knee slope k ltk kdbo : ℝ} (hk : 0 < k) (hs0 : 0 ≤ slope)
    (hknee : 0 ≤ knee)
    (hltk : 0 < knee → ltk = db2lin (thr + knee))
    (hkdbo : 0 < knee → kdbo = lin2db (kneecurve (db2lin (thr + knee)) k (db2lin thr))) :
    MonotoneOn (fun x => compcurve x k slope (db2lin thr) ltk thr knee kdbo)
      (Set.Ici 0) := by
  intro x _ y _ hxy
  dsimp only
  set lt := db2lin thr with hltdef
  have hlt0 : 0 < lt := db2lin_pos thr
  by_cases hkn : knee ≤ 0
  · by_cases hxlt : x < lt
    · rw [compcurve_below hxlt]
      by_cases hylt : y < lt
      · rw [compcurve_below hylt]; exact hxy
      · rw [compcurve_noknee hylt hkn]
        calc x ≤ lt := le_of_lt hxlt
        _ = db2lin (thr + slope * (lin2db lt - thr)) := (dbline_at_threshold thr slope).symm
        _ ≤ db2lin (thr + slope * (lin2db y - thr)) :=
            dbline_mono hs0 hlt0 (not_lt.mp hylt)
    · have hylt : ¬ y < lt := fun h => hxlt (lt_of_le_of_lt hxy h)
      rw [compcurve_noknee hxlt hkn, compcurve_noknee hylt hkn]
      exact dbline_mono hs0 (lt_of_lt_of_le hlt0 (not_lt.mp hxlt)) hxy
  · have hknpos : 0 < knee := not_le.mp hkn
    have hltk' := hltk hknpos
    have hkdbo' := hkdbo hknpos
    have hltltk : lt < ltk := by
      rw [hltk']; exact db2lin_lt_db2lin (by linarith)
    have hltk0 : 0 < ltk := by rw [hltk']; exact db2lin_pos _
    have hbound : db2lin (kdbo + slope * (lin2db ltk - thr - knee)) = kneecurve ltk k lt := by
      rw [hkdbo', hltk']
      exact knee_boundary_exact hk hknee
    by_cases hxlt : x < lt
    · rw [compcurve_below hxlt]
      by_cases hylt : y < lt
      · rw [compcurve_below hylt]; exact hxy
      · by_cases hyk : y < ltk
        · rw [compcurve_knee_lo hylt hkn hyk]
          calc x ≤ lt := le_of_lt hxlt
          _ = kneecurve lt k lt := (kneecurve_self lt (ne_of_gt hk)).symm
          _ ≤ kneecurve y k lt := kneecurve_mono hk (not_lt.mp hylt)
        · rw [compcurve_knee_hi hylt hkn hyk]
          calc x ≤ lt := le_of_lt hxlt
          _ = kneecurve lt k lt := (kneecurve_self lt (ne_of_gt hk)).symm
          _ ≤ kneecurve ltk k lt := kneecurve_mono hk (le_of_lt hltltk)
          _ = db2lin (kdbo + slope * (lin2db ltk - thr - knee)) := hbound.symm
          _ ≤ db2lin (kdbo + slope * (lin2db y - thr - knee)) :=
              dbline3_mono hs0 hltk0 (not_lt.mp hyk)
    · have hylt : ¬ y < lt := fun h => hxlt (lt_of_le_of_lt hxy h)
      by_cases hxk : x < ltk
      · rw [compcurve_knee_lo hxlt hkn hxk]
        by_cases hyk : y < ltk
        · rw [compcurve_knee_lo hylt hkn hyk]
          exact kneecurve_mono hk hxy
        · rw [compcurve_knee_hi hylt hkn hyk]
          calc kneecurve x k lt ≤ kneecurve ltk k lt := kneecurve_mono hk (le_of_lt hxk)
          _ = db2lin (kdbo + slope * (lin2db ltk - thr - knee)) := hbound.symm
          _ ≤ db2lin (kdbo + slope * (lin2db y - thr - knee)) :=
              dbline3_mono hs0 hltk0 (not_lt.mp hyk)
      · have hyk : ¬ y < ltk := fun h => hxk (lt_of_le_of_lt hxy h)
        rw [compcurve_knee_hi hxlt hkn hxk, compcurve_knee_hi hylt hkn hyk]
        exact dbline3_mono hs0 (lt_of_lt_of_le hltk0 (not_lt.mp hxk)) hxy

/-! ### Continuity of the compression curve -/

lemma continuous_db2lin : Continuous db2lin := by
  have h : db2lin = fun y => Real.exp (Real.log 10 * (0.05 * y)) := by
    funext y
    unfold db2lin
    rw [Real.rpow_def_of_pos (by norm_num)]
  rw [h]
  exact Real.continuous_exp.comp (continuous_const.mul (continuous_const.mul continuous_id))

lemma continuous_kneecurve (k lt : ℝ) : Continuous fun x => kneecurve x k lt := by
  unfold kneecurve
  exact continuous_const.add
    ((continuous_const.sub
      (Real.continuous_exp.comp (continuous_const.mul (continuous_id.sub continuous_const)))).div_const k)

lemma continuousOn_lin2db : ContinuousOn lin2db {(0 : ℝ)}ᶜ := by
  show ContinuousOn (fun x => 20 * Real.logb 10 x) {(0 : ℝ)}ᶜ
  exact continuousOn_const.mul Real.continuousOn_logb

/-- Pasting lemma: a function continuous on two closed sets is continuous
on their union. -/
lemma continuousOn_union_closed {f : ℝ → ℝ} {s t : Set ℝ} (hsc : IsClosed s)
    (htc : IsClosed t) (hs : ContinuousOn f s) (ht : ContinuousOn f t) :
    ContinuousOn f (s ∪ t) := by
  intro x hx
  rcases hx with hx | hx
  · refine ContinuousWithinAt.union (hs x hx) ?_
    by_cases hxt : x ∈ t
    · exact ht x hxt
    · exact continuousWithinAt_of_not_mem_closure (by rwa [htc.closure_eq])
  · refine ContinuousWithinAt.union ?_ (ht x hx)
    by_cases hxs : x ∈ s
    · exact hs x hxs
    · exact continuousWithinAt_of_not_mem_closure (by rwa [hsc.closure_eq])

/-- The compression curve is continuous on `[0, ∞)` for any derived
constants of the shape the code produces. -/
lemma compcurve_continuousOn {thr knee slope k ltk kdbo : ℝ} (hk : 0 < k)
    (hknee : 0 ≤ knee)
    (hltk : 0 < knee → ltk = db2lin (thr + knee))
    (hkdbo : 0 < knee → kdbo = lin2db (kneecurve (db2lin (thr + knee)) k (db2lin thr))) :
    ContinuousOn (fun x => compcurve x k slope (db2lin thr) ltk thr knee kdbo)
      (Set.Ici 0) := by
  set lt := db2lin thr with hltdef
  have hlt0 : 0 < lt := db2lin_pos thr
  by_cases hkn : knee ≤ 0
  · -- two pieces: identity up to the threshold, the ratio line beyond
    have hid : Set.EqOn (fun x => compcurve x k slope lt ltk thr knee kdbo)
        (fun x => x) (Set.Iic lt) := by
      intro x hx
      have hx' : x ≤ lt := hx
      dsimp only
      rcases lt_or_eq_of_le hx' with hxlt | hxe
      · rw [compcurve_below hxlt]
      · rw [hxe, compcurve_noknee (lt_irrefl lt) hkn, hltdef, dbline_at_threshold]
    have hsub : Set.Ici lt ⊆ {(0 : ℝ)}ᶜ := by
      intro x hx
      exact Set.mem_compl_singleton_iff.mpr (ne_of_gt (lt_of_lt_of_le hlt0 hx))
    have hline : Set.EqOn (fun x => compcurve x k slope lt ltk thr knee kdbo)
        (fun x => db2lin (thr + slope * (lin2db x - thr))) (Set.Ici lt) := by
      intro x hx
      have hx' : lt ≤ x := hx
      dsimp only
      rw [compcurve_noknee (not_lt.mpr hx') hkn]
    have hcl : ContinuousOn (fun x => db2lin (thr + slope * (lin2db x - thr)))
        (Set.Ici lt) :=
      continuous_db2lin.comp_continuousOn
        (continuousOn_const.add (continuousOn_const.mul
          (((continuousOn_lin2db.mono hsub)).sub continuousOn_const)))
    have hglue := continuousOn_union_closed isClosed_Iic isClosed_Ici
      (continuous_id.continuousOn.congr hid) (hcl.congr hline)
    exact hglue.mono (fun x _ => by
      rcases le_total x lt with h | h
      · exact Or.inl h
      · exact Or.inr h)
  · have hknpos : 0 < knee := not_le.mp hkn
    have hltk' := hltk hknpos
    have hkdbo' := hkdbo hknpos
    have hltltk : lt < ltk := by
      rw [hltk']; exact db2lin_lt_db2lin (by linarith)
    have hltk0 : 0 < ltk := by rw [hltk']; exact db2lin_pos _
    have hbound : db2lin (kdbo + slope * (lin2db ltk - thr - knee)) = kneecurve ltk k lt := by
      rw [hkdbo', hltk']
      exact knee_boundary_exact hk hknee
    -- piece 1: identity on (-∞, lt]
    have hid : Set.EqOn (fun x => compcurve x k slope lt ltk thr knee kdbo)
        (fun x => x) (Set.Iic lt) := by
      intro x hx
      have hx' : x ≤ lt := hx
      dsimp only
      rcases lt_or_eq_of_le hx' with hxlt | hxe
      · rw [compcurve_below hxlt]
      · rw [hxe, compcurve_knee_lo (lt_irrefl lt) hkn hltltk,
          kneecurve_self lt (ne_of_gt hk)]
    -- piece 2: the knee curve on [lt, ltk]
    have hkneeq : Set.EqOn (fun x => compcurve x k slope lt ltk thr knee kdbo)
        (fun x => kneecurve x k lt) (Set.Icc lt ltk) := by
      intro x hx
      obtain ⟨hx1, hx2⟩ := hx
      dsimp only
      rcases lt_or_eq_of_le hx2 with hxk | hxe
      · rw [compcurve_knee_lo (not_lt.mpr hx1) hkn hxk]
      · rw [hxe, compcurve_knee_hi (not_lt.mpr (hxe ▸ hx1)) hkn (lt_irrefl ltk)]
        exact hbound
    -- piece 3: the offset ratio line on [ltk, ∞)
    have hsub3 : Set.Ici ltk ⊆ {(0 : ℝ)}ᶜ := by
      intro x hx
      exact Set.mem_compl_singleton_iff.mpr (ne_of_gt (lt_of_lt_of_le hltk0 hx))
    have hlineq : Set.EqOn (fun x => compcurve x k slope lt ltk thr knee kdbo)
        (fun x => db2lin (kdbo + slope * (lin2db x - thr - knee))) (Set.Ici ltk) := by
      intro x hx
      have hx' : ltk ≤ x := hx
      dsimp only
      rw [compcurve_knee_hi (not_lt.mpr (le_trans (le_of_lt hltltk) hx')) hkn
        (not_lt.mpr hx')]
    have hcl3 : ContinuousOn (fun x => db2lin (kdbo + slope * (lin2db x - thr - knee)))
        (Set.Ici ltk) :=
      continuous_db2lin.comp_continuousOn
        (continuousOn_const.add (continuousOn_const.mul
          ((((continuousOn_lin2db.mono hsub3)).sub continuousOn_const).sub continuousOn_const)))
    have hglue23 := continuousOn_union_closed isClosed_Icc isClosed_Ici
      ((continuous_kneecurve k lt).continuousOn.congr hkneeq) (hcl3.congr hlineq)
    have hglue := continuousOn_union_closed isClosed_Iic (isClosed_Icc.union isClosed_Ici)
      (continuous_id.continuousOn.congr hid) hglue23
    exact hglue.mono (fun x _ => by
      rcases le_total x lt with h | h
      · exact Or.inl h
      · rcases le_total x ltk with h2 | h2
        · exact Or.inr (Or.inl ⟨h, h2⟩)
        · exact Or.inr (Or.inr h2))

/-! ### Reading the derived constants off `mkConsts` -/

lemma mkConsts_k (rate : ℕ) (p : sf_compressor_params_st) :
    (mkConsts rate p).k = computeK p.threshold p.knee p.ratio := rfl

lemma mkConsts_slope (rate : ℕ) (p : sf_compressor_params_st) :
    (mkConsts rate p).slope = 1 / p.ratio := rfl

lemma mkConsts_linearthreshold (rate : ℕ) (p : sf_compressor_params_st) :
    (mkConsts rate p).linearthreshold = db2lin p.threshold := rfl

lemma mkConsts_linearthresholdknee (rate : ℕ) (p : sf_compressor_params_st) :
    (mkConsts rate p).linearthresholdknee =
      if 0 < p.knee then db2lin (p.threshold + p.knee) else 0 := rfl

lemma mkConsts_kneedboffset (rate : ℕ) (p : sf_compressor_params_st) :
    (mkConsts rate p).kneedboffset =
      if 0 < p.knee then
        lin2db (kneecurve (db2lin (p.threshold + p.knee))
          (computeK p.threshold p.knee p.ratio) (db2lin p.threshold))
      else 0 := rfl

/-- C5: for every parameter set (knee in its `[0, 40]`-style domain, ratio
positive) with the derived constants k, slope, linearthreshold,
linearthresholdknee, kneedboffset computed exactly as `sf_compressor`
computes them, the compression curve is monotonically non-decreasing and
continuous on `[0, ∞)`; and when a knee exists, the knee-branch value and
the post-knee-branch value agree exactly at the knee's upper boundary. -/
theorem c5_compcurve_monotone_continuous (rate : ℕ) (p : sf_compressor_params_st)
    (hknee : 0 ≤ p.knee) (hratio : 0 < p.ratio) :
    MonotoneOn (fun x => compcurve x (mkConsts rate p).k (mkConsts rate p).slope
        (mkConsts rate p).linearthreshold (mkConsts rate p).linearthresholdknee
        p.threshold p.knee (mkConsts rate p).kneedboffset) (Set.Ici 0) ∧
    ContinuousOn (fun x => compcurve x (mkConsts rate p).k (mkConsts rate p).slope
        (mkConsts rate p).linearthreshold (mkConsts rate p).linearthresholdknee
        p.threshold p.knee (mkConsts rate p).kneedboffset) (Set.Ici 0) ∧
    (0 < p.knee →
      kneecurve (mkConsts rate p).linearthresholdknee (mkConsts rate p).k
          (mkConsts rate p).linearthreshold =
        db2lin ((mkConsts rate p).kneedboffset + (mkConsts rate p).slope *
          (lin2db (mkConsts rate p).linearthresholdknee - p.threshold - p.knee))) := by
  have hk : 0 < (mkConsts rate p).k := by
    rw [mkConsts_k]; exact computeK_pos _ _ _
  have hs0 : 0 ≤ (mkConsts rate p).slope := by
    rw [mkConsts_slope]; positivity
  refine ⟨?_, ?_, ?_⟩
  · rw [mkConsts_linearthreshold]
    exact compcurve_monotoneOn hk hs0 hknee
      (fun h => by rw [mkConsts_linearthresholdknee, if_pos h])
      (fun h => by rw [mkConsts_kneedboffset, if_pos h, mkConsts_k])
  · rw [mkConsts_linearthreshold]
    exact compcurve_continuousOn hk hknee
      (fun h => by rw [mkConsts_linearthresholdknee, if_pos h])
      (fun h => by rw [mkConsts_kneedboffset, if_pos h, mkConsts_k])
  · intro h
    rw [mkConsts_linearthresholdknee, mkConsts_kneedboffset, mkConsts_k,
      mkConsts_linearthreshold, mkConsts_slope, if_pos h, if_pos h]
    exact (knee_boundary_exact (computeK_pos _ _ _) hknee).symm

/-- Parameter set used to witness C5: no knee, unit ratio. -/
def c5Params : sf_compressor_params_st :=
  ⟨-24, 0, 1, 0.003, 0.25, 0.006, 0.09, 0.16, 0.42, 0.98, 0, 1⟩

theorem c5_compcurve_monotone_continuous_witness :
    MonotoneOn (fun x => compcurve x (mkConsts 44100 c5Params).k (mkConsts 44100 c5Params).slope
        (mkConsts 44100 c5Params).linearthreshold (mkConsts 44100 c5Params).linearthresholdknee
        c5Params.threshold c5Params.knee (mkConsts 44100 c5Params).kneedboffset) (Set.Ici 0) ∧
    ContinuousOn (fun x => compcurve x (mkConsts 44100 c5Params).k (mkConsts 44100 c5Params).slope
        (mkConsts 44100 c5Params).linearthreshold (mkConsts 44100 c5Params).linearthresholdknee
        c5Params.threshold c5Params.knee (mkConsts 44100 c5Params).kneedboffset) (Set.Ici 0) ∧
    (0 < c5Params.knee →
      kneecurve (mkConsts 44100 c5Params).linearthresholdknee (mkConsts 44100 c5Params).k
          (mkConsts 44100 c5Params).linearthreshold =
        db2lin ((mkConsts 44100 c5Params).kneedboffset + (mkConsts 44100 c5Params).slope *
          (lin2db (mkConsts 44100 c5Params).linearthresholdknee - c5Params.threshold -
            c5Params.knee))) :=
  c5_compcurve_monotone_continuous 44100 c5Params (le_refl 0) zero_lt_one

/-! ### Bounds on the per-sample gain (C6) -/

lemma db2lin_zero : db2lin 0 = 1 := by
  unfold db2lin
  norm_num

lemma absf_nonneg (v : ℝ) : 0 ≤ absf v := by
  unfold absf
  by_cases h : v < 0
  · rw [if_pos h]; linarith
  · rw [if_neg h]; exact not_lt.mp h

/-- The curve value never exceeds its argument (unity attenuation at most),
for constants of the shape the code derives. -/
lemma compcurve_le_self {x k slope lt ltk thr knee kdbo : ℝ} (hk : 0 < k) (hx : 0 < x)
    (hs0 : 0 ≤ slope) (hs1 : slope ≤ 1) (hknee : 0 ≤ knee)
    (hlt : lt = db2lin thr)
    (hltk : 0 < knee → ltk = db2lin (thr + knee))
    (hkdbo : 0 < knee → kdbo = lin2db (kneecurve (db2lin (thr + knee)) k (db2lin thr))) :
    compcurve x k slope lt ltk thr knee kdbo ≤ x := by
  subst hlt
  by_cases h1 : x < db2lin thr
  · rw [compcurve_below h1]
  by_cases h2 : knee ≤ 0
  · rw [compcurve_noknee h1 h2]
    have hu : thr ≤ lin2db x := by
      have h := lin2db_le_lin2db (db2lin_pos thr) (not_lt.mp h1)
      rwa [lin2db_db2lin] at h
    have hmul : slope * (lin2db x - thr) ≤ lin2db x - thr :=
      mul_le_of_le_one_left (by linarith) hs1
    calc db2lin (thr + slope * (lin2db x - thr)) ≤ db2lin (lin2db x) := by
          apply db2lin_le_db2lin; linarith
    _ = x := db2lin_lin2db hx
  by_cases h3 : x < ltk
  · rw [compcurve_knee_lo h1 h2 h3]
    exact kneecurve_le_self hk (not_lt.mp h1)
  · rw [compcurve_knee_hi h1 h2 h3]
    have hknpos : 0 < knee := not_le.mp h2
    have hltk' := hltk hknpos
    have hkdbo' := hkdbo hknpos
    have hkc_pos : 0 < kneecurve (db2lin (thr + knee)) k (db2lin thr) :=
      kneecurve_pos hk (db2lin_pos thr) (db2lin_le_db2lin (by linarith))
    have hkdbo_le : kdbo ≤ thr + knee := by
      rw [hkdbo']
      have h := lin2db_le_lin2db hkc_pos
        (kneecurve_le_self hk (db2lin_le_db2lin (by linarith)))
      rwa [lin2db_db2lin] at h
    have hu : thr + knee ≤ lin2db x := by
      have h := lin2db_le_lin2db (hltk' ▸ db2lin_pos (thr + knee)) (not_lt.mp h3)
      rwa [hltk', lin2db_db2lin] at h
    have hmul : slope * (lin2db x - thr - knee) ≤ lin2db x - thr - knee :=
      mul_le_of_le_one_left (by linarith) hs1
    calc db2lin (kdbo + slope * (lin2db x - thr - knee)) ≤ db2lin (lin2db x) := by
          apply db2lin_le_db2lin; linarith
    _ = x := db2lin_lin2db hx

lemma compcurve_pos {x k slope lt ltk thr knee kdbo : ℝ} (hk : 0 < k) (hx : 0 < x)
    (hlt : lt = db2lin thr) :
    0 < compcurve x k slope lt ltk thr knee kdbo := by
  subst hlt
  by_cases h1 : x < db2lin thr
  · rw [compcurve_below h1]; exact hx
  by_cases h2 : knee ≤ 0
  · rw [compcurve_noknee h1 h2]; exact db2lin_pos _
  by_cases h3 : x < ltk
  · rw [compcurve_knee_lo h1 h2 h3]
    exact kneecurve_pos hk (db2lin_pos thr) (not_lt.mp h1)
  · rw [compcurve_knee_hi h1 h2 h3]; exact db2lin_pos _

/-- Range invariant of the envelope state machine (compressor.c lines
154-227): detector average and compressor gain stay in `[0, 1]`, the
per-chunk envelope rate is non-negative and the scaled desired gain stays
in `[0, 1]`. -/
def EnvInv (st : CState) : Prop :=
  0 ≤ st.detectoravg ∧ st.detectoravg ≤ 1 ∧
  0 ≤ st.compgain ∧ st.compgain ≤ 1 ∧
  0 ≤ st.enveloperate ∧
  0 ≤ st.scaleddesiredgain ∧ st.scaleddesiredgain ≤ 1

/-- The facts about the derived constants that the gain bound rests on;
all hold for `mkConsts` under the spec's parameter domains. -/
structure GoodConsts (cs : Consts) : Prop where
  wet_nonneg : 0 ≤ cs.wet
  wet_le_one : cs.wet ≤ 1
  dry_eq : cs.dry = 1 - cs.wet
  slope_nonneg : 0 ≤ cs.slope
  slope_le_one : cs.slope ≤ 1
  k_pos : 0 < cs.k
  asinv_nonneg : 0 ≤ cs.attacksamplesinv
  satinv_pos : 0 < cs.satreleasesamplesinv
  mg_nonneg : 0 ≤ cs.mastergain
  lt_eq : cs.linearthreshold = db2lin cs.threshold
  knee_nonneg : 0 ≤ cs.knee
  ltk_eq : 0 < cs.knee → cs.linearthresholdknee = db2lin (cs.threshold + cs.knee)
  kdbo_eq : 0 < cs.knee → cs.kneedboffset =
    lin2db (kneecurve (db2lin (cs.threshold + cs.knee)) cs.k (db2lin cs.threshold))

/-- The per-sample attenuation value (compressor.c lines 197-204), pulled
out of `sampleStep` for reasoning (`attenuation` in the source). -/
def attenOf (cs : Consts) (inp : sf_sample_st) : ℝ :=
  let inputL := absf inp.L
  let inputR := absf inp.R
  let inputmax := if inputR < inputL then inputL else inputR
  if inputmax < 0.0001 then 1
  else compcurve inputmax cs.k cs.slope cs.linearthreshold cs.linearthresholdknee
    cs.threshold cs.knee cs.kneedboffset / inputmax

/-- The per-sample detector rate (compressor.c lines 206-215), pulled out
of `sampleStep` for reasoning. -/
def rateOf (cs : Consts) (avg atten : ℝ) : ℝ :=
  if avg < atten then
    let attendb0 := -lin2db atten
    let attendb := if attendb0 < 2 then 2 else attendb0
    let dbpersample := attendb * cs.satreleasesamplesinv
    db2lin dbpersample - 1
  else 1

lemma sampleStep_fst_detectoravg (cs : Consts) (st : CState) (inp : sf_sample_st) :
    (sampleStep cs st inp).1.detectoravg =
      if 1 < st.detectoravg + (attenOf cs inp - st.detectoravg) *
          rateOf cs st.detectoravg (attenOf cs inp) then 1
      else st.detectoravg + (attenOf cs inp - st.detectoravg) *
          rateOf cs st.detectoravg (attenOf cs inp) := rfl

lemma sampleStep_fst_compgain (cs : Consts) (st : CState) (inp : sf_sample_st) :
    (sampleStep cs st inp).1.compgain =
      if st.enveloperate < 1 then
        st.compgain + (st.scaleddesiredgain - st.compgain) * st.enveloperate
      else if 1 < st.compgain * st.enveloperate then 1
      else st.compgain * st.enveloperate := rfl

lemma sampleStep_fst_enveloperate (cs : Consts) (st : CState) (inp : sf_sample_st) :
    (sampleStep cs st inp).1.enveloperate = st.enveloperate := rfl

lemma sampleStep_fst_scaleddesiredgain (cs : Consts) (st : CState) (inp : sf_sample_st) :
    (sampleStep cs st inp).1.scaleddesiredgain = st.scaleddesiredgain := rfl

lemma attenOf_bounds {cs : Consts} (hcs : GoodConsts cs) (inp : sf_sample_st) :
    0 < attenOf cs inp ∧ attenOf cs inp ≤ 1 := by
  unfold attenOf
  dsimp only
  set im := if absf inp.R < absf inp.L then absf inp.L else absf inp.R with him
  have him0 : 0 ≤ im := by
    rw [him]
    by_cases h : absf inp.R < absf inp.L
    · rw [if_pos h]; exact absf_nonneg _
    · rw [if_neg h]; exact absf_nonneg _
  by_cases hsmall : im < 0.0001
  · rw [if_pos hsmall]
    norm_num
  · rw [if_neg hsmall]
    have himpos : 0 < im := by
      have : (0.0001 : ℝ) ≤ im := not_lt.mp hsmall
      linarith
    constructor
    · exact div_pos (compcurve_pos hcs.k_pos himpos hcs.lt_eq) himpos
    · rw [div_le_one himpos]
      exact compcurve_le_self hcs.k_pos himpos hcs.slope_nonneg hcs.slope_le_one
        hcs.knee_nonneg hcs.lt_eq hcs.ltk_eq hcs.kdbo_eq

lemma rateOf_pos {cs : Consts} (hcs : GoodConsts cs) (avg atten : ℝ) :
    0 < rateOf cs avg atten := by
  unfold rateOf
  dsimp only
  by_cases h : avg < atten
  · rw [if_pos h]
    have hattdb : (2 : ℝ) ≤ if -lin2db atten < 2 then 2 else -lin2db atten := by
      by_cases h2 : -lin2db atten < 2
      · rw [if_pos h2]
      · rw [if_neg h2]; exact not_lt.mp h2
    have hdb : db2lin 0 < db2lin ((if -lin2db atten < 2 then 2 else -lin2db atten) *
        cs.satreleasesamplesinv) :=
      db2lin_lt_db2lin (by nlinarith [hcs.satinv_pos])
    rw [db2lin_zero] at hdb
    linarith
  · rw [if_neg h]
    norm_num

lemma rateOf_of_not_lt {cs : Consts} {avg atten : ℝ} (h : ¬ avg < atten) :
    rateOf cs avg atten = 1 := by
  unfold rateOf
  rw [if_neg h]

lemma clamp_one_le (E : ℝ) : (if 1 < E then (1 : ℝ) else E) ≤ 1 := by
  by_cases h : 1 < E
  · rw [if_pos h]
  · rw [if_neg h]; exact not_lt.mp h

lemma clamp_one_nonneg {E : ℝ} (h : 0 ≤ E) : 0 ≤ (if 1 < E then (1 : ℝ) else E) := by
  by_cases h1 : 1 < E
  · rw [if_pos h1]; norm_num
  · rw [if_neg h1]; exact h

lemma compgain_next_bounds {cg sdg er : ℝ} (hcg0 : 0 ≤ cg) (hcg1 : cg ≤ 1)
    (hsdg0 : 0 ≤ sdg) (hsdg1 : sdg ≤ 1) (her : 0 ≤ er) :
    0 ≤ (if er < 1 then cg + (sdg - cg) * er else if 1 < cg * er then 1 else cg * er) ∧
    (if er < 1 then cg + (sdg - cg) * er else if 1 < cg * er then 1 else cg * er) ≤ 1 := by
  by_cases h : er < 1
  · rw [if_pos h]
    constructor
    · nlinarith [mul_nonneg hcg0 (by linarith : (0:ℝ) ≤ 1 - er), mul_nonneg hsdg0 her]
    · nlinarith [mul_nonneg (sub_nonneg.mpr hcg1) (by linarith : (0:ℝ) ≤ 1 - er),
        mul_nonneg (sub_nonneg.mpr hsdg1) her]
  · rw [if_neg h]
    by_cases h2 : 1 < cg * er
    · rw [if_pos h2]
      norm_num
    · rw [if_neg h2]
      exact ⟨mul_nonneg hcg0 her, not_lt.mp h2⟩

lemma envInv_sampleStep {cs : Consts} (hcs : GoodConsts cs) {st : CState}
    (h : EnvInv st) (inp : sf_sample_st) : EnvInv (sampleStep cs st inp).1 := by
  obtain ⟨havg0, havg1, hcg0, hcg1, her, hsdg0, hsdg1⟩ := h
  obtain ⟨hA0, hA1⟩ := attenOf_bounds hcs inp
  have hEnonneg : 0 ≤ st.detectoravg + (attenOf cs inp - st.detectoravg) *
      rateOf cs st.detectoravg (attenOf cs inp) := by
    by_cases hrel : st.detectoravg < attenOf cs inp
    · have hR := rateOf_pos hcs st.detectoravg (attenOf cs inp)
      nlinarith
    · rw [rateOf_of_not_lt hrel]
      nlinarith
  refine ⟨?_, ?_, ?_, ?_, ?_, ?_, ?_⟩
  · rw [sampleStep_fst_detectoravg]
    exact clamp_one_nonneg hEnonneg
  · rw [sampleStep_fst_detectoravg]
    exact clamp_one_le _
  · rw [sampleStep_fst_compgain]
    exact (compgain_next_bounds hcg0 hcg1 hsdg0 hsdg1 her).1
  · rw [sampleStep_fst_compgain]
    exact (compgain_next_bounds hcg0 hcg1 hsdg0 hsdg1 her).2
  · rw [sampleStep_fst_enveloperate]
    exact her
  · rw [sampleStep_fst_scaleddesiredgain]
    exact hsdg0
  · rw [sampleStep_fst_scaleddesiredgain]
    exact hsdg1

lemma attack_enveloperate_nonneg {cs : Consts} (hasinv : 0 ≤ cs.attacksamplesinv)
    (mcd : ℝ) :
    0 ≤ 1 - (0.25 / (if mcd < 0.5 then (0.5 : ℝ) else mcd)) ^ cs.attacksamplesinv := by
  have hatt : (0.5 : ℝ) ≤ if mcd < 0.5 then (0.5 : ℝ) else mcd := by
    by_cases h : mcd < 0.5
    · rw [if_pos h]
    · rw [if_neg h]; exact not_lt.mp h
  have hbase0 : (0 : ℝ) < 0.25 / (if mcd < 0.5 then (0.5 : ℝ) else mcd) :=
    div_pos (by norm_num) (by linarith)
  have hbase1 : 0.25 / (if mcd < 0.5 then (0.5 : ℝ) else mcd) ≤ 1 := by
    rw [div_le_one (by linarith)]
    linarith
  have hpow := Real.rpow_le_one (le_of_lt hbase0) hbase1 hasinv
  linarith

lemma envInv_chunkUpdate {cs : Consts} (hcs : GoodConsts cs) {st : CState}
    (h : EnvInv st) : EnvInv (chunkUpdate cs st) := by
  obtain ⟨havg0, havg1, hcg0, hcg1, her, hsdg0, hsdg1⟩ := h
  have hpi := Real.pi_pos
  have hsdg0' : 0 ≤ Real.arcsin st.detectoravg * ang90inv := by
    unfold ang90inv
    exact mul_nonneg (Real.arcsin_nonneg.mpr havg0) (by positivity)
  have hsdg1' : Real.arcsin st.detectoravg * ang90inv ≤ 1 := by
    unfold ang90inv
    have h1 : Real.arcsin st.detectoravg ≤ Real.pi / 2 := Real.arcsin_le_pi_div_two _
    have h2 : Real.arcsin st.detectoravg * (2 / Real.pi) ≤ (Real.pi / 2) * (2 / Real.pi) :=
      mul_le_mul_of_nonneg_right h1 (by positivity)
    have h3 : (Real.pi / 2) * (2 / Real.pi) = 1 := by field_simp
    linarith
  unfold chunkUpdate
  dsimp only
  split
  · exact ⟨havg0, havg1, hcg0, hcg1, le_of_lt (db2lin_pos _), hsdg0', hsdg1'⟩
  · exact ⟨havg0, havg1, hcg0, hcg1,
      attack_enveloperate_nonneg hcs.asinv_nonneg _, hsdg0', hsdg1'⟩

lemma envInv_stepAt {cs : Consts} (hcs : GoodConsts cs) (n : ℕ) {st : CState}
    (h : EnvInv st) (inp : sf_sample_st) : EnvInv (stepAt cs n st inp).1 := by
  unfold stepAt
  split
  · exact envInv_sampleStep hcs (envInv_chunkUpdate hcs h) inp
  · exact envInv_sampleStep hcs h inp

lemma envInv_runFrom {cs : Consts} (hcs : GoodConsts cs) :
    ∀ (l : List sf_sample_st) (n : ℕ) (st : CState), EnvInv st →
      EnvInv (runFrom cs n st l).1 := by
  intro l
  induction l with
  | nil => intro n st h; exact h
  | cons a rest ih =>
    intro n st h
    exact ih (n + 1) (stepAt cs n st a).1 (envInv_stepAt hcs n h a)

lemma envInv_init (S : ℕ) : EnvInv (initState S) := by
  unfold EnvInv initState
  norm_num

lemma gainOf_bounds {cs : Consts} (hcs : GoodConsts cs) {cg : ℝ} (h0 : 0 ≤ cg)
    (h1 : cg ≤ 1) :
    0 ≤ gainOf cs cg ∧ gainOf cs cg ≤ cs.dry + cs.wet * cs.mastergain := by
  unfold gainOf
  have hpi := Real.pi_pos
  have hang0 : 0 ≤ ang90 * cg := by
    unfold ang90
    positivity
  have hangpi : ang90 * cg ≤ Real.pi := by
    unfold ang90
    nlinarith
  have hsin0 : 0 ≤ Real.sin (ang90 * cg) :=
    Real.sin_nonneg_of_nonneg_of_le_pi hang0 hangpi
  have hsin1 : Real.sin (ang90 * cg) ≤ 1 := Real.sin_le_one _
  have hwm : 0 ≤ cs.wet * cs.mastergain := mul_nonneg hcs.wet_nonneg hcs.mg_nonneg
  constructor
  · have h := mul_nonneg hwm hsin0
    rw [hcs.dry_eq]
    linarith [hcs.wet_le_one]
  · have h := mul_le_of_le_one_right hwm hsin1
    linarith

/-! ### `GoodConsts` holds for the constants the code derives -/

lemma mkConsts_wet (rate : ℕ) (p : sf_compressor_params_st) :
    (mkConsts rate p).wet = p.wet := rfl

lemma mkConsts_dry (rate : ℕ) (p : sf_compressor_params_st) :
    (mkConsts rate p).dry = 1 - p.wet := rfl

lemma mkConsts_attacksamplesinv (rate : ℕ) (p : sf_compressor_params_st) :
    (mkConsts rate p).attacksamplesinv = 1 / ((rate : ℝ) * p.attack) := rfl

lemma mkConsts_satreleasesamplesinv (rate : ℕ) (p : sf_compressor_params_st) :
    (mkConsts rate p).satreleasesamplesinv = 1 / ((rate : ℝ) * 0.0025) := rfl

lemma mkConsts_threshold (rate : ℕ) (p : sf_compressor_params_st) :
    (mkConsts rate p).threshold = p.threshold := rfl

lemma mkConsts_knee (rate : ℕ) (p : sf_compressor_params_st) :
    (mkConsts rate p).knee = p.knee := rfl

lemma mkConsts_mastergain (rate : ℕ) (p : sf_compressor_params_st) :
    (mkConsts rate p).mastergain =
      db2lin p.postgain * (1 / compcurve 1 (computeK p.threshold p.knee p.ratio)
        (1 / p.ratio) (db2lin p.threshold)
        (if 0 < p.knee then db2lin (p.threshold + p.knee) else 0)
        p.threshold p.knee
        (if 0 < p.knee then
          lin2db (kneecurve (db2lin (p.threshold + p.knee))
            (computeK p.threshold p.knee p.ratio) (db2lin p.threshold))
        else 0)) ^ (0.6 : ℝ) := rfl

lemma goodConsts_mkConsts (rate : ℕ) (p : sf_compressor_params_st) (hrate : 1 ≤ rate)
    (hwet0 : 0 ≤ p.wet) (hwet1 : p.wet ≤ 1) (hratio : 1 ≤ p.ratio) (hknee : 0 ≤ p.knee)
    (hattack : 0 ≤ p.attack) : GoodConsts (mkConsts rate p) := by
  have hratio0 : (0 : ℝ) < p.ratio := by linarith
  have hrate0 : (0 : ℝ) < (rate : ℝ) := by
    have : 0 < rate := by omega
    exact_mod_cast this
  refine ⟨hwet0, hwet1, mkConsts_dry rate p, ?_, ?_, ?_, ?_, ?_, ?_,
    mkConsts_linearthreshold rate p, hknee, ?_, ?_⟩
  · rw [mkConsts_slope]
    positivity
  · rw [mkConsts_slope, div_le_one hratio0]
    linarith
  · rw [mkConsts_k]
    exact computeK_pos _ _ _
  · rw [mkConsts_attacksamplesinv]
    exact one_div_nonneg.mpr (mul_nonneg (Nat.cast_nonneg rate) hattack)
  · rw [mkConsts_satreleasesamplesinv]
    exact one_div_pos.mpr (mul_pos hrate0 (by norm_num))
  · rw [mkConsts_mastergain]
    exact mul_nonneg (le_of_lt (db2lin_pos _))
      (Real.rpow_nonneg (one_div_nonneg.mpr
        (le_of_lt (compcurve_pos (computeK_pos _ _ _) one_pos rfl))) _)
  · intro h
    have h' : 0 < p.knee := h
    rw [mkConsts_linearthresholdknee, mkConsts_threshold, mkConsts_knee, if_pos h']
  · intro h
    have h' : 0 < p.knee := h
    rw [mkConsts_kneedboffset, mkConsts_k, mkConsts_threshold, mkConsts_knee, if_pos h']

/-- C6: for every valid parameter set (wet in [0,1], ratio >= 1, knee >= 0,
attack >= 0, positive sample rate) and every finite input, the per-sample
gain `dry + wet * mastergain * sin(pi/2 * compgain)` computed by
`sf_compressor` at each processed sample lies within
`[0, dry + wet * mastergain]` (real numbers in this model are finite by
construction). -/
theorem c6_gain_bounded (snd : sf_snd_st) (p : sf_compressor_params_st)
    (hrate : 1 ≤ snd.rate) (hwet0 : 0 ≤ p.wet) (hwet1 : p.wet ≤ 1)
    (hratio : 1 ≤ p.ratio) (hknee : 0 ≤ p.knee) (hattack : 0 ≤ p.attack) (n : ℕ) :
    0 ≤ gainAtSample (mkConsts snd.rate p) (sfDelaybufsize snd p) (sfInput snd) n ∧
    gainAtSample (mkConsts snd.rate p) (sfDelaybufsize snd p) (sfInput snd) n ≤
      (mkConsts snd.rate p).dry + (mkConsts snd.rate p).wet *
        (mkConsts snd.rate p).mastergain := by
  have hcs := goodConsts_mkConsts snd.rate p hrate hwet0 hwet1 hratio hknee hattack
  have hinv := envInv_runFrom hcs ((sfInput snd).take (n + 1)) 0
    (initState (sfDelaybufsize snd p)) (envInv_init _)
  unfold gainAtSample
  exact gainOf_bounds hcs hinv.2.2.1 hinv.2.2.2.1

/-- Parameter set used to witness C6. -/
def c6Params : sf_compressor_params_st :=
  ⟨-24, 0, 1, 0, 0.25, 4, 0.09, 0.16, 0.42, 0.98, 0, 1⟩

theorem c6_gain_bounded_witness :
    0 ≤ gainAtSample (mkConsts zeroSnd.rate c6Params) (sfDelaybufsize zeroSnd c6Params)
        (sfInput zeroSnd) 0 ∧
    gainAtSample (mkConsts zeroSnd.rate c6Params) (sfDelaybufsize zeroSnd c6Params)
        (sfInput zeroSnd) 0 ≤
      (mkConsts zeroSnd.rate c6Params).dry + (mkConsts zeroSnd.rate c6Params).wet *
        (mkConsts zeroSnd.rate c6Params).mastergain :=
  c6_gain_bounded zeroSnd c6Params (le_refl 1) zero_le_one (le_refl 1) (le_refl 1)
    (le_refl 0) (le_refl 0) 0

end
